import Mathlib

/-!
Shallow embedding of `src/main.rs` (jperkel/rust_in_nature): the codon
translation engine, reverse-complementation and fixed-width sequence
formatting.  Rust `String`/`&str` values are modelled as `List Char`;
`process::exit(1)` and panics become explicit error values; `HashMap`
indexing (which panics on a missing key) becomes `Option`.
-/

set_option maxRecDepth 10000

deriving instance DecidableEq for Except

namespace RustInNature

/-- `enum SeqType` from the source: DNA, single-letter protein,
triple-letter protein. -/
inductive SeqType
  | DNA
  | Protein1
  | Protein3
deriving DecidableEq

/-- `enum Translation` from the source: one-letter or three-letter
amino-acid output. -/
inductive Translation
  | OneLetter
  | ThreeLetter
deriving DecidableEq

/-- `const GENETIC_CODE: &str`, the fixed 64-character translation table
(T = 0, C = 1, A = 2, G = 3; index = 16*b0 + 4*b1 + b2). -/
def GENETIC_CODE : List Char :=
  "FFLLSSSSYY**CC*WLLLLPPPPHHQQRRRRIIIMTTTTNNKKSSRRVVVVAAAADDEEGGGG".data

/-- `const ERR_BAD_NT: usize = 99`, the sentinel for an invalid nucleotide. -/
def ERR_BAD_NT : Nat := 99

/-- `fn lookup(x: char) -> usize`: base ordinal under T->0, C->1, A->2, G->3,
`ERR_BAD_NT` otherwise. -/
def lookup (x : Char) : Nat :=
  if x = 'T' then 0
  else if x = 'C' then 1
  else if x = 'A' then 2
  else if x = 'G' then 3
  else ERR_BAD_NT

/-- The `three_letter_code` HashMap built inside `fn translate`:
one-letter amino-acid symbol to three-letter abbreviation.  HashMap
indexing panics on a missing key, so the model is `Option`. -/
def three_letter_code (c : Char) : Option (List Char) :=
  if c = 'A' then some "Ala".data
  else if c = 'B' then some "???".data
  else if c = 'C' then some "Cys".data
  else if c = 'D' then some "Asp".data
  else if c = 'E' then some "Glu".data
  else if c = 'F' then some "Phe".data
  else if c = 'G' then some "Gly".data
  else if c = 'H' then some "His".data
  else if c = 'I' then some "Ile".data
  else if c = 'J' then some "???".data
  else if c = 'K' then some "Lys".data
  else if c = 'L' then some "Leu".data
  else if c = 'M' then some "Met".data
  else if c = 'N' then some "Asn".data
  else if c = 'O' then some "Pyr".data
  else if c = 'P' then some "Pro".data
  else if c = 'Q' then some "Gln".data
  else if c = 'R' then some "Arg".data
  else if c = 'S' then some "Ser".data
  else if c = 'T' then some "Thr".data
  else if c = 'U' then some "Sel".data
  else if c = 'V' then some "Val".data
  else if c = 'W' then some "Trp".data
  else if c = 'X' then some "???".data
  else if c = 'Y' then some "Tyr".data
  else if c = 'Z' then some "???".data
  else if c = '*' then some "***".data
  else none

/-- How `fn translate` can fail: the `process::exit(1)` path when the codon
vector contains `ERR_BAD_NT` (carrying that vector, which the code prints),
or a panic (out-of-bounds `codon[i]` write, `.nth(index).unwrap()`, or a
HashMap miss). -/
inductive TransError
  | invalidCodon (codon : List Nat)
  | panicked
deriving DecidableEq

/-- `fn translate(triplet: &str, t: Translation) -> String`.
The loop `codon[i] = lookup(base)` panics when the triplet has more than
3 characters; shorter triplets leave `ERR_BAD_NT` slots in place. -/
def translate (triplet : List Char) (t : Translation) : Except TransError (List Char) :=
  if 3 < triplet.length then Except.error TransError.panicked
  else
    let codon := (List.range 3).map (fun i => (triplet.map lookup).getD i ERR_BAD_NT)
    if codon.contains ERR_BAD_NT then Except.error (TransError.invalidCodon codon)
    else
      let index := codon.getD 0 0 * 16 + codon.getD 1 0 * 4 + codon.getD 2 0
      match GENETIC_CODE.get? index with
      | none => Except.error TransError.panicked
      | some c =>
        match t with
        | Translation.OneLetter => Except.ok [c]
        | Translation.ThreeLetter =>
          match three_letter_code c with
          | none => Except.error TransError.panicked
          | some a => Except.ok a

/-- The `complements` HashMap of `fn reverse_complement`; indexing a
missing key panics, hence `Option`. -/
def complements (c : Char) : Option Char :=
  if c = 'A' then some 'T'
  else if c = 'C' then some 'G'
  else if c = 'G' then some 'C'
  else if c = 'T' then some 'A'
  else none

/-- The push loop of `fn reverse_complement`: complement each character of
the (already reversed) list in order, failing on the first missing key. -/
def rc_loop : List Char → Option (List Char)
  | [] => some []
  | c :: rest =>
    match complements c, rc_loop rest with
    | some d, some ds => some (d :: ds)
    | _, _ => none

/-- `fn reverse_complement(s: &str) -> String`: iterate over the sequence
in reverse, pushing each complement. -/
def reverse_complement (s : List Char) : Option (List Char) :=
  rc_loop s.reverse

/-- The `divisor` match inside `fn print_seq`: 1 for DNA / one-letter
protein, 3 for three-letter protein (count amino acids, not characters). -/
def divisor (t : SeqType) : Nat :=
  match t with
  | SeqType.DNA => 1
  | SeqType.Protein1 => 1
  | SeqType.Protein3 => 3

/-- `fn print_seq(s: &str, t: SeqType)`, modelled as the list of emitted
lines, each a pair (position number, line content): full 72-character
slices `s[i*72..i*72+72]` numbered `(i*72)/divisor + 1`, then the
remainder slice `s[len - len%72..len]` numbered `(len - len%72)/divisor + 1`
when `len % 72 != 0`. -/
def print_seq (s : List Char) (t : SeqType) : List (Nat × List Char) :=
  let linelen := 72
  let d := divisor t
  let full := (List.range (s.length / linelen)).map
    (fun i => (i * linelen / d + 1, (s.drop (i * linelen)).take linelen))
  if s.length % linelen ≠ 0 then
    full ++ [((s.length - s.length % linelen) / d + 1,
              s.drop (s.length - s.length % linelen))]
  else
    full

/-- The Rust format spec `{number:>0width$}` with `width=3`: the decimal
digits of the number, right-aligned and zero-padded to at least 3
characters. -/
def fmt3 (n : Nat) : List Char :=
  let digits := Nat.toDigits 10 n
  List.replicate (3 - digits.length) '0' ++ digits

/-- One `println!("{number:>0width$} {}", ...)` line: padded position
number, a space, then the slice. -/
def render_line (p : Nat × List Char) : List Char :=
  fmt3 p.1 ++ ' ' :: p.2

/-- How whole-sequence translation (main.rs lines 220-228) can fail: the
`assert!(s.len() % 3 == 0)` precondition, or `translate` failing on some
codon. -/
inductive SeqError
  | misaligned
  | codonFailed (e : TransError)
deriving DecidableEq

/-- The translation loop of `main`: translate each 3-character chunk in
order and concatenate, stopping at the first failure. -/
def translate_chunks (t : Translation) : List (List Char) → Except SeqError (List Char)
  | [] => Except.ok []
  | c :: rest =>
    match translate c t with
    | Except.error e => Except.error (SeqError.codonFailed e)
    | Except.ok a =>
      match translate_chunks t rest with
      | Except.error e => Except.error e
      | Except.ok p => Except.ok (a ++ p)

/-- `translate_sequence` as performed by `main` (lines 220-228): assert
`len % 3 == 0` up front, then translate the codons `s[3i..3i+3]` for
`i < len/3` in order and concatenate. -/
def translate_sequence (s : List Char) (t : Translation) : Except SeqError (List Char) :=
  if s.length % 3 ≠ 0 then Except.error SeqError.misaligned
  else translate_chunks t
    ((List.range (s.length / 3)).map (fun i => (s.drop (3 * i)).take 3))

/-- The spec's `three_letter` operator applied to a one-letter translation
result: look the single character up in the source's `three_letter_code`
map (a miss would panic, as HashMap indexing does). -/
def one_to_three (s : List Char) : Except TransError (List Char) :=
  match s with
  | [c] =>
    match three_letter_code c with
    | some a => Except.ok a
    | none => Except.error TransError.panicked
  | _ => Except.error TransError.panicked

/-- The valid nucleotide alphabet {A, C, G, T}. -/
def bases : List Char := ['A', 'C', 'G', 'T']

/-- Total Watson-Crick complement on valid bases (identity elsewhere);
agrees with `complements` on `bases`. -/
def compFn (c : Char) : Char :=
  if c = 'A' then 'T'
  else if c = 'C' then 'G'
  else if c = 'G' then 'C'
  else if c = 'T' then 'A'
  else c

/-- The 96-nucleotide end-to-end test input: "ATG" repeated 32 times. -/
def dna96 : List Char := (List.replicate 32 (['A', 'T', 'G'] : List Char)).flatten

/-- A 216-character three-letter protein string: "Met" repeated 72 times
(72 residues). -/
def met72 : List Char := (List.replicate 72 (['M', 'e', 't'] : List Char)).flatten

/-! ### Helper lemmas -/

lemma lookup_of_not_base {c : Char} (h : c ∉ bases) : lookup c = ERR_BAD_NT := by
  simp [bases] at h
  obtain ⟨hA, hC, hG, hT⟩ := h
  simp [lookup, hA, hC, hG, hT]

lemma lookup_lt_of_base {c : Char} (h : c ∈ bases) : lookup c < 4 := by
  fin_cases h <;> decide

lemma complements_of_not_base {c : Char} (h : c ∉ bases) : complements c = none := by
  simp [bases] at h
  obtain ⟨hA, hC, hG, hT⟩ := h
  simp [complements, hA, hC, hG, hT]

lemma complements_of_base {c : Char} (h : c ∈ bases) : complements c = some (compFn c) := by
  fin_cases h <;> decide

lemma compFn_base {c : Char} (h : c ∈ bases) : compFn c ∈ bases := by
  fin_cases h <;> decide

lemma compFn_invol {c : Char} (h : c ∈ bases) : compFn (compFn c) = c := by
  fin_cases h <;> decide

lemma rc_loop_eq_map {l : List Char} (h : ∀ c ∈ l, c ∈ bases) :
    rc_loop l = some (l.map compFn) := by
  induction l with
  | nil => rfl
  | cons a l ih =>
    have ha := h a (by simp)
    have hl : ∀ c ∈ l, c ∈ bases := fun c hc => h c (by simp [hc])
    simp [rc_loop, complements_of_base ha, ih hl]

lemma rc_loop_eq_none {l : List Char} (h : ∃ c ∈ l, c ∉ bases) : rc_loop l = none := by
  induction l with
  | nil => simp at h
  | cons a l ih =>
    obtain ⟨x, hx, hxb⟩ := h
    rcases List.mem_cons.mp hx with rfl | hx
    · simp [rc_loop, complements_of_not_base hxb]
    · rw [rc_loop, ih ⟨x, hx, hxb⟩]
      cases complements a <;> rfl

lemma fmt3_min_length (n : Nat) : 3 ≤ (fmt3 n).length := by
  simp [fmt3]
  omega

/-! ### Claim theorems -/

/-- C1: for every codon whose three characters are all in {A,C,G,T},
one-letter translation returns exactly the character at index
`16*b0 + 4*b1 + b2` (a value below 64) of the 64-character table
`GENETIC_CODE`, where `b0,b1,b2` are the `lookup` ordinals
(T->0, C->1, A->2, G->3). -/
theorem translate_is_table_at_index :
    ∀ c0 ∈ bases, ∀ c1 ∈ bases, ∀ c2 ∈ bases,
      16 * lookup c0 + 4 * lookup c1 + lookup c2 < 64 ∧
      translate [c0, c1, c2] Translation.OneLetter
        = Except.ok [GENETIC_CODE.getD (16 * lookup c0 + 4 * lookup c1 + lookup c2) ' '] := by
  decide

theorem translate_is_table_at_index_witness :
    'A' ∈ bases ∧ 'T' ∈ bases ∧ 'G' ∈ bases ∧
    (16 * lookup 'A' + 4 * lookup 'T' + lookup 'G' < 64 ∧
      translate ['A', 'T', 'G'] Translation.OneLetter
        = Except.ok [GENETIC_CODE.getD (16 * lookup 'A' + 4 * lookup 'T' + lookup 'G') ' ']) :=
  ⟨by decide, by decide, by decide,
    translate_is_table_at_index 'A' (by decide) 'T' (by decide) 'G' (by decide)⟩

/-- C10: the table index of a valid codon is at most 63, `GENETIC_CODE`
has exactly 64 characters, and translation of a valid codon succeeds in
both modes — in particular the `.nth(index).unwrap()` table access never
panics. -/
theorem translate_never_panics :
    GENETIC_CODE.length = 64 ∧
    ∀ c0 ∈ bases, ∀ c1 ∈ bases, ∀ c2 ∈ bases,
      16 * lookup c0 + 4 * lookup c1 + lookup c2 ≤ 63 ∧
      (translate [c0, c1, c2] Translation.OneLetter).isOk = true ∧
      (translate [c0, c1, c2] Translation.ThreeLetter).isOk = true := by
  decide

theorem translate_never_panics_witness :
    'T' ∈ bases ∧
    (16 * lookup 'T' + 4 * lookup 'T' + lookup 'T' ≤ 63 ∧
      (translate ['T', 'T', 'T'] Translation.OneLetter).isOk = true ∧
      (translate ['T', 'T', 'T'] Translation.ThreeLetter).isOk = true) :=
  ⟨by decide,
    translate_never_panics.2 'T' (by decide) 'T' (by decide) 'T' (by decide)⟩

/-- C5: for every valid codon, applying the one-letter-to-three-letter
abbreviation map to the one-letter translation yields exactly the
three-letter translation. -/
theorem one_three_agree :
    ∀ c0 ∈ bases, ∀ c1 ∈ bases, ∀ c2 ∈ bases,
      (translate [c0, c1, c2] Translation.OneLetter).bind one_to_three
        = translate [c0, c1, c2] Translation.ThreeLetter := by
  decide

theorem one_three_agree_witness :
    'A' ∈ bases ∧
    (translate ['A', 'T', 'G'] Translation.OneLetter).bind one_to_three
      = translate ['A', 'T', 'G'] Translation.ThreeLetter :=
  ⟨by decide, one_three_agree 'A' (by decide) 'T' (by decide) 'G' (by decide)⟩

/-- C3: for every 3-character triplet containing a character outside
{A,C,G,T}, `translate` fails with the invalid-codon condition (the
`process::exit(1)` path, carrying the ordinal vector that contains
`ERR_BAD_NT`); it never returns a translated result. -/
theorem translate_invalid_base_fails :
    ∀ (triplet : List Char) (t : Translation), triplet.length = 3 →
      (∃ c ∈ triplet, c ∉ bases) →
      translate triplet t
        = Except.error (TransError.invalidCodon (triplet.map lookup)) := by
  intro triplet t hlen hbad
  rcases triplet with _ | ⟨a, triplet⟩
  · simp at hlen
  rcases triplet with _ | ⟨b, triplet⟩
  · simp at hlen
  rcases triplet with _ | ⟨c, triplet⟩
  · simp at hlen
  rcases triplet with _ | ⟨d, triplet⟩
  case cons.cons.cons.cons => simp at hlen
  have hcodon : (List.range 3).map (fun i => (([a, b, c]).map lookup).getD i ERR_BAD_NT)
      = [lookup a, lookup b, lookup c] := rfl
  have hmem : ERR_BAD_NT ∈ [lookup a, lookup b, lookup c] := by
    obtain ⟨x, hx, hxb⟩ := hbad
    have hl := lookup_of_not_base hxb
    rcases List.mem_cons.mp hx with rfl | hx
    · simp [hl]
    rcases List.mem_cons.mp hx with rfl | hx
    · simp [hl]
    rcases List.mem_cons.mp hx with rfl | hx
    · simp [hl]
    · simp at hx
  simp only [translate, List.length_cons, List.length_nil, hcodon]
  rw [if_neg (by omega), if_pos (by simpa using hmem)]
  rfl

theorem translate_invalid_base_fails_witness :
    (['A', 'T', 'X'] : List Char).length = 3 ∧
    (∃ c ∈ (['A', 'T', 'X'] : List Char), c ∉ bases) ∧
    translate ['A', 'T', 'X'] Translation.OneLetter
      = Except.error (TransError.invalidCodon (['A', 'T', 'X'].map lookup)) :=
  ⟨by decide, by decide,
    translate_invalid_base_fails ['A', 'T', 'X'] Translation.OneLetter (by decide)
      ⟨'X', by decide, by decide⟩⟩

/-- C4: translating a sequence whose length is not a multiple of 3 fails
with the misaligned-length condition (the `assert!` before the codon
loop), producing no partial protein. -/
theorem translate_sequence_misaligned (s : List Char) (t : Translation)
    (h : s.length % 3 ≠ 0) :
    translate_sequence s t = Except.error SeqError.misaligned := by
  simp [translate_sequence, h]

theorem translate_sequence_misaligned_witness :
    (List.replicate 7 'A').length % 3 ≠ 0 ∧
    translate_sequence (List.replicate 7 'A') Translation.OneLetter
      = Except.error SeqError.misaligned :=
  ⟨by decide,
    translate_sequence_misaligned (List.replicate 7 'A') Translation.OneLetter (by decide)⟩

/-- C6: reverse-complement is an involution on sequences over {A,C,G,T}:
it succeeds, and applying it to its own output returns the original
sequence. -/
theorem reverse_complement_involution :
    ∀ s : List Char, (∀ c ∈ s, c ∈ bases) →
      ∃ u, reverse_complement s = some u ∧ reverse_complement u = some s := by
  intro s h
  have h1 : ∀ c ∈ s.reverse, c ∈ bases := by
    intro c hc
    exact h c (by simpa using hc)
  refine ⟨s.reverse.map compFn, ?_, ?_⟩
  · simpa [reverse_complement] using rc_loop_eq_map h1
  · have hrev : (s.reverse.map compFn).reverse = s.map compFn := by
      rw [← List.map_reverse, List.reverse_reverse]
    have h2 : ∀ c ∈ s.map compFn, c ∈ bases := by
      intro c hc
      obtain ⟨x, hx, rfl⟩ := List.mem_map.mp hc
      exact compFn_base (h x hx)
    rw [reverse_complement, hrev, rc_loop_eq_map h2, List.map_map]
    have : s.map (compFn ∘ compFn) = s.map id :=
      List.map_congr_left (fun c hc => compFn_invol (h c hc))
    rw [this, List.map_id]

theorem reverse_complement_involution_witness :
    (∀ c ∈ (['A', 'T', 'G'] : List Char), c ∈ bases) ∧
    ∃ u, reverse_complement ['A', 'T', 'G'] = some u ∧
      reverse_complement u = some ['A', 'T', 'G'] :=
  ⟨by decide, reverse_complement_involution ['A', 'T', 'G'] (by decide)⟩

/-- C7: reverse-complement of any sequence containing a symbol outside
{A,C,G,T} fails (the HashMap index panics on the missing key, modelled as
`none`); no result is produced. -/
theorem reverse_complement_invalid_fails :
    ∀ s : List Char, (∃ c ∈ s, c ∉ bases) → reverse_complement s = none := by
  intro s h
  obtain ⟨x, hx, hxb⟩ := h
  exact rc_loop_eq_none ⟨x, by simpa using hx, hxb⟩

theorem reverse_complement_invalid_fails_witness :
    (∃ c ∈ (['A', 'X'] : List Char), c ∉ bases) ∧
    reverse_complement ['A', 'X'] = none :=
  ⟨by decide, reverse_complement_invalid_fails ['A', 'X'] ⟨'X', by decide, by decide⟩⟩

/-- C2 counterexample: `print_seq` chunks by 72 *characters*, not 72
display units.  On the 216-character three-letter protein `met72`
(72 residues) with divisor 3, the code emits 3 lines, while the claimed
formula `ceil(len / (72 * divisor))` gives 1 — both with `len` counted in
characters (216) and counted in residues (72, i.e. `len / 3`). -/
theorem print_seq_unit_formula_fails :
    (print_seq met72 SeqType.Protein3).length = 3 ∧
    met72.length = 216 ∧
    (met72.length + 72 * 3 - 1) / (72 * 3) = 1 ∧
    (met72.length / 3 + 72 * 3 - 1) / (72 * 3) = 1 ∧
    (print_seq met72 SeqType.Protein3).length ≠ (met72.length + 72 * 3 - 1) / (72 * 3) := by
  decide

/-- C2 (amended): `print_seq` renders fixed-width chunks of 72
*characters* per line for every divisor: the number of emitted lines is
`ceil(len / 72)` with `len` the character length, the final partial line
has `len % 72` characters when that is nonzero, and a length that is an
exact multiple of 72 produces only full 72-character lines and no
trailing partial line. -/
theorem print_seq_chunks_72_chars (s : List Char) (t : SeqType) :
    (print_seq s t).length = (s.length + 72 - 1) / 72
    ∧ (s.length % 72 ≠ 0 →
        ∃ p, (print_seq s t).getLast? = some p ∧ p.2.length = s.length % 72)
    ∧ (s.length % 72 = 0 → ∀ p ∈ print_seq s t, p.2.length = 72) := by
  by_cases hm : s.length % 72 = 0
  · refine ⟨?_, fun hc => absurd hm hc, fun _ p hp => ?_⟩
    · simp [print_seq, hm]
      omega
    · simp only [print_seq, if_neg (by omega : ¬s.length % 72 ≠ 0)] at hp
      obtain ⟨i, hi, rfl⟩ := List.mem_map.mp hp
      simp only [List.mem_range] at hi
      simp only [List.length_take, List.length_drop]
      omega
  · refine ⟨?_, fun _ => ?_, fun hc => absurd hc hm⟩
    · simp [print_seq, hm]
      omega
    · refine ⟨((s.length - s.length % 72) / divisor t + 1,
        s.drop (s.length - s.length % 72)), ?_, ?_⟩
      · simp only [print_seq, if_pos (show s.length % 72 ≠ 0 from hm)]
        exact List.getLast?_concat _
      · simp only [List.length_drop]
        omega

theorem print_seq_chunks_72_chars_witness :
    (print_seq (List.replicate 90 'A') SeqType.DNA).length = 2 ∧
    ∃ p, (print_seq (List.replicate 90 'A') SeqType.DNA).getLast? = some p ∧
      p.2.length = 18 := by
  have h := print_seq_chunks_72_chars (List.replicate 90 'A') SeqType.DNA
  refine ⟨?_, ?_⟩
  · have h1 := h.1
    simpa using h1
  · have h2 := h.2.1 (by decide)
    simpa using h2

/-- C8: line `j` (0-based) of the formatted output carries the position
number `(j*72)/divisor + 1` — the 1-based position of the first display
unit of the line, which for divisor 3 (three-letter mode) is the
character index `j*72` divided by 3, i.e. a residue count — followed by
the 72-character slice starting at character `j*72`; the rendered line is
that number zero-padded to at least 3 characters, a space, and the
slice. -/
theorem print_seq_line_numbering (s : List Char) (t : SeqType) (j : Nat)
    (h : j < (print_seq s t).length) :
    (print_seq s t).get ⟨j, h⟩
      = (j * 72 / divisor t + 1, (s.drop (j * 72)).take 72)
    ∧ render_line ((print_seq s t).get ⟨j, h⟩)
      = fmt3 (j * 72 / divisor t + 1) ++ ' ' :: (s.drop (j * 72)).take 72
    ∧ 3 ≤ (fmt3 (j * 72 / divisor t + 1)).length := by
  have hmain : (print_seq s t).get ⟨j, h⟩
      = (j * 72 / divisor t + 1, (s.drop (j * 72)).take 72) := by
    by_cases hm : s.length % 72 = 0
    · have hlen : (print_seq s t).length = s.length / 72 := by
        simp [print_seq, hm]
      have hj : j < s.length / 72 := hlen ▸ h
      simp [print_seq, hm, List.get_eq_getElem, hj]
    · have hj : j < s.length / 72 + 1 := by
        have hlen : (print_seq s t).length = s.length / 72 + 1 := by
          simp [print_seq, hm]
        exact hlen ▸ h
      rcases Nat.lt_or_ge j (s.length / 72) with hj1 | hj1
      · simp only [print_seq, if_pos (show s.length % 72 ≠ 0 from hm),
          List.get_eq_getElem]
        rw [List.getElem_append_left (by simpa using hj1)]
        simp [hj1]
      · have hje : j = s.length / 72 := by omega
        have hsub : s.length - s.length % 72 = j * 72 := by
          subst hje
          omega
        simp only [print_seq, if_pos (show s.length % 72 ≠ 0 from hm),
          List.get_eq_getElem]
        rw [List.getElem_append_right (by simpa using hj1)]
        simp only [List.getElem_singleton, hsub]
        have hdrop : (s.drop (j * 72)).take 72 = s.drop (j * 72) :=
          List.take_of_length_le (by simp [List.length_drop]; omega)
        rw [hdrop]
  refine ⟨hmain, ?_, fmt3_min_length _⟩
  rw [hmain]
  rfl

theorem print_seq_line_numbering_witness :
    ∃ h : 1 < (print_seq (List.replicate 90 'A') SeqType.Protein3).length,
      (print_seq (List.replicate 90 'A') SeqType.Protein3).get ⟨1, h⟩
        = (1 * 72 / divisor SeqType.Protein3 + 1,
           ((List.replicate 90 'A').drop (1 * 72)).take 72) :=
  ⟨by decide,
    (print_seq_line_numbering (List.replicate 90 'A') SeqType.Protein3 1 (by decide)).1⟩

/-- C9 counterexample: translating `"ATG" * 32` (96 nt) in one-letter
mode does yield 32 'M's, but formatting that 32-character protein at
divisor 1 emits ONE line (32 < 72), not the two lines the claim
states. -/
theorem protein32_two_lines_fails :
    translate_sequence dna96 Translation.OneLetter = Except.ok (List.replicate 32 'M') ∧
    (print_seq (List.replicate 32 'M') SeqType.Protein1).length = 1 ∧
    (print_seq (List.replicate 32 'M') SeqType.Protein1).length ≠ 2 := by
  decide

/-- C9 (amended): translating the 96-nucleotide sequence `"ATG" * 32` in
one-letter mode yields the 32-character string of all 'M'; formatting
that protein at divisor 1 emits a single line numbered 1; it is the
96-nucleotide DNA sequence itself whose formatting emits two lines, with
position numbers `line_index * 72 + 1` (001 and 073) and line lengths 72
and 24. -/
theorem dna96_end_to_end :
    translate_sequence dna96 Translation.OneLetter = Except.ok (List.replicate 32 'M') ∧
    print_seq (List.replicate 32 'M') SeqType.Protein1 = [(1, List.replicate 32 'M')] ∧
    (print_seq dna96 SeqType.DNA).map Prod.fst = [0 * 72 + 1, 1 * 72 + 1] ∧
    (print_seq dna96 SeqType.DNA).map (fun p => p.2.length) = [72, 24] := by
  decide

end RustInNature
